import Mathlib

/-!
Verification of the pangualpha pretrain data-processing pipeline
(mindformers/tools/dataset_preprocess/pangualpha/pretrain_data_process.py).

Each Python function used by the claims is embedded as an executable Lean
definition.  Generators are modelled as the finite lists they yield; loops
that consume a shrinking list are written with an explicit fuel argument
(always called with fuel at least the length of the list, so the fuel never
runs out on the calls that matter) to keep every definition computable by
the kernel.
-/

/-! ## Definitions: chunking and windowing -/

/-- Embeds `chunks(lst, n)` (pretrain_data_process.py lines 36-39):
`for i in range(0, len(lst), n): yield lst[i:i + n]`.
The fuel argument bounds the recursion depth; `chunks` below supplies
`lst.length`, which suffices whenever `0 < n`. -/
def chunksAux {α : Type} (n : Nat) : Nat → List α → List (List α)
  | 0, _ => []
  | fuel + 1, lst =>
    if lst.isEmpty then []
    else lst.take n :: chunksAux n fuel (lst.drop n)

/-- The list of chunks yielded by the Python generator `chunks(lst, n)`.
For `n = 0` the Python `range(0, len(lst), 0)` raises, so that case is
outside the embedding; the claims only use `0 < n`. -/
def chunks {α : Type} (lst : List α) (n : Nat) : List (List α) :=
  if n = 0 then [] else chunksAux n lst.length lst

/-- The windowing step of the drivers (lines 103-107, 119-123, 135-139):
of the chunks, only those with `len(chunk) == seq_length` are yielded. -/
def windows {α : Type} (lst : List α) (S : Nat) : List (List α) :=
  (chunks lst S).filter (fun c => c.length == S)

/-! ## Definitions: Python string primitives -/

/-- The apostrophe character, written via its code point. -/
def apost : Char := Char.ofNat 39

/-- The straight double-quote character, written via its code point. -/
def sQuote : Char := Char.ofNat 34

/-- Python whitespace for `str.strip()` and the regex class backslash-s,
restricted to the ASCII range: space, tab, newline, carriage return,
vertical tab, form feed. -/
def isPyWs (c : Char) : Bool :=
  c = ' ' || c = Char.ofNat 9 || c = Char.ofNat 10 ||
  c = Char.ofNat 13 || c = Char.ofNat 11 || c = Char.ofNat 12

/-- Remove Python whitespace from both ends of a character list
(the effect of `str.strip()` with no argument). -/
def trimWsList (l : List Char) : List Char :=
  ((l.dropWhile isPyWs).reverse.dropWhile isPyWs).reverse

/-- One pass of Python `str.replace(old, new)` over a character list:
scan left to right, replacing non-overlapping occurrences of `old` and
continuing after the replacement.  Fuel is at least the length of `s`
on every call made below, which suffices because each step either
consumes one character or a nonempty `old`. -/
def replAux (old new : List Char) : Nat → List Char → List Char
  | 0, s => s
  | fuel + 1, s =>
    if old ≠ [] ∧ s.take old.length = old then
      new ++ replAux old new fuel (s.drop old.length)
    else
      match s with
      | [] => []
      | c :: rest => c :: replAux old new fuel rest

/-- Python `s.replace(old, new)` on strings (for nonempty `old`, the only
form the source uses). -/
def pyReplace (s old new : String) : String :=
  String.mk (replAux old.data new.data s.data.length s.data)

/-- Python `s.strip()` (no argument: strips whitespace from both ends). -/
def pyStrip (s : String) : String := String.mk (trimWsList s.data)

/-- Python `s.strip(".")`: remove period characters from both ends. -/
def stripDots (s : String) : String :=
  String.mk (((s.data.dropWhile (fun c => c = '.')).reverse.dropWhile
    (fun c => c = '.')).reverse)

/-! ## Definitions: clean_wikitext (lines 57-88) -/

/-- The literal replacement text of the first regex substitution on line 61:
in a replacement string, a character class is not interpreted, so the
replacement is the eight literal characters slash apostrophe bracket 0
hyphen 9 bracket slash. -/
def slashPat : List Char := ['/', apost, '[', '0', '-', '9', ']', '/']

/-- Embeds `re.sub(r"/' [0-9]/", r"/'[0-9]/", string)` (line 61): the
pattern matches a slash, apostrophe, space, one digit, slash; matches are
non-overlapping and scanning continues after each match. -/
def sub1 : Nat → List Char → List Char
  | 0, s => s
  | _ + 1, [] => []
  | fuel + 1, c1 :: rest =>
    match rest with
    | c2 :: c3 :: c4 :: c5 :: rest2 =>
      if c1 = '/' ∧ c2 = apost ∧ c3 = ' ' ∧ c4.isDigit ∧ c5 = '/' then
        slashPat ++ sub1 fuel rest2
      else c1 :: sub1 fuel rest
    | _ => c1 :: sub1 fuel rest

/-- Split a character list at the first occurrence of `c`, returning the
part before and the part after, or `none` when `c` does not occur. -/
def splitAtChar (c : Char) : List Char → Option (List Char × List Char)
  | [] => none
  | x :: rest =>
    if x = c then some ([], rest)
    else (splitAtChar c rest).map (fun p => (x :: p.1, p.2))

/-- Embeds the bracket/quote regex substitutions of lines 74-78, each of
the shape: opening char, lazy greedy-whitespace-trimmed content that
cannot contain the closing char, closing char, replaced by the opening
char, the content stripped of surrounding whitespace, the closing char.
Because the content class excludes the closing char, a match always ends
at the first closing char after the opening one, and scanning resumes
after it; an opening char with no closing char left never matches. -/
def subPair (o c : Char) : Nat → List Char → List Char
  | 0, s => s
  | _ + 1, [] => []
  | fuel + 1, x :: rest =>
    if x = o then
      match splitAtChar c rest with
      | some p => (o :: trimWsList p.1) ++ (c :: subPair o c fuel p.2)
      | none => x :: subPair o c fuel rest
    else x :: subPair o c fuel rest

/-- The string s-space-apostrophe (Python "s '"). -/
def sApos1 : String := String.mk ['s', ' ', apost]

/-- The string s-apostrophe (Python "s'"). -/
def sApos2 : String := String.mk ['s', apost]

/-- The string space-apostrophe-s (Python " 's"). -/
def sApos3 : String := String.mk [' ', apost, 's']

/-- The string apostrophe-s (Python "'s"). -/
def sApos4 : String := String.mk [apost, 's']

/-- Space, degree sign, space (line 83 left side). -/
def degSp : String := String.mk [' ', Char.ofNat 176, ' ']

/-- The degree sign alone (line 83 right side). -/
def degOnly : String := String.mk [Char.ofNat 176]

/-- Space then newline (line 84 left side). -/
def spNl : String := String.mk [' ', Char.ofNat 10]

/-- Newline then space (line 85 left side). -/
def nlSp : String := String.mk [Char.ofNat 10, ' ']

/-- A newline alone (lines 84-85 right side). -/
def nlOnly : String := String.mk [Char.ofNat 10]

/-- Embeds `clean_wikitext` (lines 57-88), applying the same substitutions
in the same order as the source. -/
def clean_wikitext (s : String) : String :=
  let s1 := pyReplace s sApos1 sApos2
  let s2 := String.mk (sub1 s1.data.length s1.data)
  let s3 := pyReplace s2 " @-@ " "-"
  let s4 := pyReplace s3 " @,@ " ","
  let s5 := pyReplace s4 " @.@ " "."
  let s6 := pyReplace s5 " : " ": "
  let s7 := pyReplace s6 " ; " "; "
  let s8 := pyReplace s7 " . " ". "
  let s9 := pyReplace s8 " ! " "! "
  let s10 := pyReplace s9 " ? " "? "
  let s11 := pyReplace s10 " , " ", "
  let s12 := String.mk (subPair '(' ')' s11.data.length s11.data)
  let s13 := String.mk (subPair '[' ']' s12.data.length s12.data)
  let s14 := String.mk (subPair (Char.ofNat 123) (Char.ofNat 125) s13.data.length s13.data)
  let s15 := String.mk (subPair sQuote sQuote s14.data.length s14.data)
  let s16 := String.mk (subPair apost apost s15.data.length s15.data)
  let s17 := pyReplace s16 "= = = =" "===="
  let s18 := pyReplace s17 "= = =" "==="
  let s19 := pyReplace s18 "= =" "=="
  let s20 := pyReplace s19 degSp degOnly
  let s21 := pyReplace s20 spNl nlOnly
  let s22 := pyReplace s21 nlSp nlOnly
  let s23 := pyReplace s22 " N " " 1 "
  pyReplace s23 sApos3 sApos4

/-! ## Definitions: token-id stream construction (lines 96-102, 112-118) -/

/-- Embeds the per-paragraph accumulation loop of `tokenize_openwebtext`
(lines 98-102): `for para in ...: if para: content +=
tokenizer.convert_tokens_to_ids(tokenizer.tokenize(para)) + [eot]`.
The tokenizer is opaque, modelled as a function from a paragraph to its
token ids. -/
def buildStream (tok : String → List Int) (eot : Int) (paras : List String) : List Int :=
  paras.foldl
    (fun content para => if para = "" then content else content ++ (tok para ++ [eot]))
    []

/-- The stream the spec describes, for comparison with `buildStream`:
concatenation over the Documents whose tokenized length is nonzero of the
ids followed by one end marker (spec section 8, first testable property). -/
def specStream (tok : String → List Int) (eot : Int) (paras : List String) : List Int :=
  ((paras.filter (fun p => !(tok p).isEmpty)).map (fun p => tok p ++ [eot])).flatten

/-! ## Definitions: lambada text normalization (lines 130-132) -/

/-- The left curly double quote, code point 8220. -/
def lquote : String := String.mk [Char.ofNat 8220]

/-- The right curly double quote, code point 8221. -/
def rquote : String := String.mk [Char.ofNat 8221]

/-- A one-character string holding the straight double quote. -/
def straightQuote : String := String.mk [sQuote]

/-- Embeds the lambada per-line normalization (lines 131-132):
`json.loads(line)['text'].replace(curly-left, straight).replace(curly-right,
straight).strip().strip(".")`, starting from the text field value. -/
def lambadaNormalize (text : String) : String :=
  stripDots (pyStrip (pyReplace (pyReplace text lquote straightQuote) rquote straightQuote))

/-- The text field value of the example JSON line: curly opening quote,
Hello, period, curly closing quote. -/
def lambadaExample : String := lquote ++ "Hello." ++ rquote

/-! ## Definitions: the per-worker write loop task_unit (lines 142-168) -/

/-- Observable events of the write loop: a raw-data write of one batch, a
printed running count, and the final writer commit. -/
inductive WEvent (α : Type) where
  | write (batch : List α)
  | log (count : Nat)
  | commit
deriving DecidableEq

/-- `batch_size = 1024  # size of write batch` (line 151). -/
def batch_size : Nat := 1024

/-- Embeds the `while True` loop of `task_unit` (lines 153-167) over the
finite list of samples the item iterator yields: fill `data_batch` with up
to `batch_size` items; if `next` did not raise, write the batch and log
the count; on `StopIteration`, write and log the partial batch when it is
nonempty, then break.  Fuel is at least the number of remaining items on
every call made below. -/
def writeLoop {α : Type} : Nat → List α → Nat → List (WEvent α)
  | 0, _, _ => []
  | fuel + 1, items, count =>
    if (items.take batch_size).length = batch_size then
      WEvent.write (items.take batch_size) :: WEvent.log (count + batch_size) ::
        writeLoop fuel (items.drop batch_size) (count + batch_size)
    else if (items.take batch_size).isEmpty then []
    else
      [WEvent.write (items.take batch_size),
       WEvent.log (count + (items.take batch_size).length)]

/-- The full event trace of `task_unit` on a finite sample stream: the
write loop followed by the single `writer.commit()` (line 168). -/
def task_unit {α : Type} (items : List α) : List (WEvent α) :=
  writeLoop items.length items 0 ++ [WEvent.commit]

/-- Reference shape of the loop trace: for each batch in order, one write
event then one log event carrying the running total. -/
def batchTrace {α : Type} : List (List α) → Nat → List (WEvent α)
  | [], _ => []
  | b :: bs, count =>
    WEvent.write b :: WEvent.log (count + b.length) :: batchTrace bs (count + b.length)

/-! ## Definitions: schema and sample fields (lines 103-107, 245) -/

/-- One field declaration of the writer schema: element type and shape. -/
structure FieldSchema where
  ty : String
  shape : List Int
deriving DecidableEq

/-- Embeds line 245: `mindrecord_schema = {args.data_column_name:
{"type": "int32", "shape": [-1]},}`. -/
def mindrecord_schema (data_column_name : String) : List (String × FieldSchema) :=
  [(data_column_name, ⟨"int32", [-1]⟩)]

/-- Wrap of an integer into numpy int32 range, the effect of
`np.array(chunk, dtype=np.int32)` on each element. -/
def toInt32 (v : Int) : Int := (v + 2 ^ 31) % 2 ^ 32 - 2 ^ 31

/-- Embeds lines 104-106: `sample = {}; sample['input_ids'] =
np.array(chunk, dtype=np.int32)`.  The field name is the literal
string input_ids; each value records the ids and the dtype tag. -/
def mkSample (chunk : List Int) : List (String × (List Int × String)) :=
  [("input_ids", (chunk.map toInt32, "int32"))]

/-- A sample matches a schema when the field names coincide and every
shared field carries the declared element type. -/
def matchesSchema (sample : List (String × (List Int × String)))
    (schema : List (String × FieldSchema)) : Bool :=
  sample.map Prod.fst == schema.map Prod.fst &&
  sample.all (fun p => schema.all (fun q => p.1 != q.1 || p.2.2 == q.2.ty))

/-! ## Definitions: shard file naming and the final summary (lines 277-297) -/

/-- Python `str.rjust(width, fill)`: pad on the left with `fill` up to
`width`; a string already at least `width` long is returned unchanged. -/
def pyRjust (s : String) (width : Nat) (fill : Char) : String :=
  if width ≤ s.length then s
  else String.mk (List.replicate (width - s.length) fill) ++ s

/-- Embeds line 277: `SUFFIX = len(str(args.file_partition - 1))`. -/
def shardSuffixWidth (file_partition : Nat) : Nat :=
  (toString (file_partition - 1)).length

/-- Embeds lines 278-279: the openwebtext shard file names
`["{}{}".format(args.output_file, str(x).rjust(SUFFIX, '0')) for x in
range(args.file_partition)]`. -/
def file_names (output_file : String) (file_partition : Nat) : List String :=
  (List.range file_partition).map
    (fun x => output_file ++ pyRjust (toString x) (shardSuffixWidth file_partition) '0')

/-- Embeds lines 294-296: the path printed by the final summary line,
`out_file = args.output_file; if args.file_partition > 1: out_file += '0'`. -/
def summary_out_file (output_file : String) (file_partition : Nat) : String :=
  if 1 < file_partition then output_file ++ "0" else output_file

/-! ## Definitions: JIEBATokenizer attribute model (lines 171-221) -/

/-- Values an attribute of the tokenizer object can hold: an integer, the
encoder dictionary, a possibly absent special id, or an external object
(the sentencepiece processor and the translation table). -/
inductive PyAttrVal where
  | natV (n : Nat)
  | dictV (d : List (String × Nat))
  | optV (o : Option Nat)
  | extV
deriving DecidableEq

/-- The instance attributes `__init__` assigns (lines 175-186), with the
dictionary kept as an association list with distinct keys. -/
structure JIEBATokenizer where
  max_len : Nat
  encoder : List (String × Nat)
  eod_id : Option Nat
  eot_id : Option Nat
  pad_id : Option Nat
deriving DecidableEq

/-- Python dict assignment `d[k] = v`: overwrite the entry when the key is
present, append it otherwise. -/
def dictSet (d : List (String × Nat)) (k : String) (v : Nat) : List (String × Nat) :=
  if d.any (fun p => p.1 == k) then d.map (fun p => if p.1 == k then (k, v) else p)
  else d ++ [(k, v)]

/-- Python `d.get(k)`: the stored value, or `none` when absent. -/
def dictGet (d : List (String × Nat)) (k : String) : Option Nat :=
  (d.find? (fun p => p.1 == k)).map Prod.snd

/-- Embeds `JIEBATokenizer.__init__` (lines 175-186): builds the encoder
from the sentencepiece piece list (`encoder[id_to_piece(i)] = i` for each
`i`), then resolves the three special ids with `dict.get`.  `max_len`
defaults to `int(1e12)`.  No attribute named special_tokens is ever
assigned. -/
def JIEBATokenizer.init (pieces : List String) (maxLen : Option Nat) : JIEBATokenizer :=
  let enc := (List.range pieces.length).foldl
    (fun d i => dictSet d (pieces.getD i "") i) []
  ⟨maxLen.getD 1000000000000, enc,
    dictGet enc "<eod>", dictGet enc "<eot>", dictGet enc "<pad>"⟩

/-- Python attribute lookup on a constructed tokenizer, for the data
attributes assigned in `__init__`; any other data attribute name is
absent and lookup raises AttributeError (modelled as `none`). -/
def getattrJT (t : JIEBATokenizer) (name : String) : Option PyAttrVal :=
  if name = "max_len" then some (PyAttrVal.natV t.max_len)
  else if name = "encoder" then some (PyAttrVal.dictV t.encoder)
  else if name = "sp" then some PyAttrVal.extV
  else if name = "translator" then some PyAttrVal.extV
  else if name = "eod_id" then some (PyAttrVal.optV t.eod_id)
  else if name = "eot_id" then some (PyAttrVal.optV t.eot_id)
  else if name = "pad_id" then some (PyAttrVal.optV t.pad_id)
  else none

/-- Python `len()` of an attribute value: defined for the dictionary,
a TypeError otherwise. -/
def pyLenOf : PyAttrVal → Except String Nat
  | PyAttrVal.dictV d => Except.ok d.length
  | _ => Except.error "TypeError"

/-- Embeds `__len__` (lines 192-193): `return len(self.encoder) +
len(self.special_tokens)`.  Both attribute reads go through `getattrJT`;
a missing attribute is an AttributeError. -/
def dunderLen (t : JIEBATokenizer) : Except String Nat :=
  match getattrJT t "encoder" with
  | none => Except.error "AttributeError: encoder"
  | some encv =>
    match getattrJT t "special_tokens" with
    | none => Except.error "AttributeError: special_tokens"
    | some stv =>
      match pyLenOf encv, pyLenOf stv with
      | Except.ok a, Except.ok b => Except.ok (a + b)
      | Except.error e, _ => Except.error e
      | _, Except.error e => Except.error e

/-- Embeds the `vocab_size` property (lines 188-190):
`return len(self.encoder)`. -/
def vocab_size (t : JIEBATokenizer) : Nat := t.encoder.length

/-! ## Helper lemmas about chunking -/

theorem chunksAux_nil {α : Type} (n fuel : Nat) :
    chunksAux n fuel ([] : List α) = [] := by
  cases fuel <;> simp [chunksAux]

theorem chunksAux_fuel {α : Type} (n : Nat) (hn : 0 < n) :
    ∀ f1 f2 (lst : List α), lst.length ≤ f1 → lst.length ≤ f2 →
      chunksAux n f1 lst = chunksAux n f2 lst := by
  intro f1
  induction f1 with
  | zero =>
    intro f2 lst h1 _
    have : lst = [] := List.eq_nil_of_length_eq_zero (Nat.le_zero.mp h1)
    subst this
    simp [chunksAux_nil]
  | succ f ih =>
    intro f2 lst h1 h2
    cases lst with
    | nil => simp [chunksAux_nil]
    | cons x xs =>
      cases f2 with
      | zero => simp at h2
      | succ f2' =>
        simp only [List.length_cons] at h1 h2
        simp only [chunksAux, List.isEmpty_cons, if_neg Bool.false_ne_true]
        have hd : ((x :: xs).drop n).length = xs.length + 1 - n := by
          simp [List.length_drop]
        rw [ih f2' _ (by omega) (by omega)]

theorem chunks_cons {α : Type} (lst : List α) (n : Nat) (hn : 0 < n) (h : lst ≠ []) :
    chunks lst n = lst.take n :: chunks (lst.drop n) n := by
  unfold chunks
  rw [if_neg (Nat.pos_iff_ne_zero.mp hn), if_neg (Nat.pos_iff_ne_zero.mp hn)]
  cases lst with
  | nil => exact absurd rfl h
  | cons x xs =>
    simp only [List.length_cons, chunksAux, List.isEmpty_cons, if_neg Bool.false_ne_true]
    congr 1
    apply chunksAux_fuel n hn
    · simp only [List.length_drop, List.length_cons]
      omega
    · exact Nat.le_refl _

theorem chunks_flatten {α : Type} (lst : List α) (n : Nat) (hn : 0 < n) :
    (chunks lst n).flatten = lst := by
  unfold chunks
  rw [if_neg (Nat.pos_iff_ne_zero.mp hn)]
  suffices h : ∀ fuel (l : List α), l.length ≤ fuel → (chunksAux n fuel l).flatten = l by
    exact h lst.length lst (Nat.le_refl _)
  intro fuel
  induction fuel with
  | zero =>
    intro l hl
    have : l = [] := List.eq_nil_of_length_eq_zero (Nat.le_zero.mp hl)
    subst this
    simp [chunksAux_nil]
  | succ f ih =>
    intro l hl
    cases l with
    | nil => simp [chunksAux_nil]
    | cons x xs =>
      simp only [List.length_cons] at hl
      simp only [chunksAux, List.isEmpty_cons, if_neg Bool.false_ne_true,
        List.flatten_cons]
      rw [ih]
      · exact List.take_append_drop n (x :: xs)
      · simp only [List.length_drop, List.length_cons]
        omega

theorem chunksAux_ne_nil {α : Type} (n fuel : Nat) (l : List α)
    (h : l ≠ []) (hf : l.length ≤ fuel) : chunksAux n fuel l ≠ [] := by
  cases fuel with
  | zero =>
    have : l = [] := List.eq_nil_of_length_eq_zero (Nat.le_zero.mp hf)
    exact absurd this h
  | succ f =>
    cases l with
    | nil => exact absurd rfl h
    | cons x xs => simp [chunksAux]

theorem chunks_dropLast {α : Type} (lst : List α) (n : Nat) (hn : 0 < n) :
    ∀ c ∈ (chunks lst n).dropLast, c.length = n := by
  unfold chunks
  rw [if_neg (Nat.pos_iff_ne_zero.mp hn)]
  suffices h : ∀ fuel (l : List α), l.length ≤ fuel →
      ∀ c ∈ (chunksAux n fuel l).dropLast, c.length = n by
    exact h lst.length lst (Nat.le_refl _)
  intro fuel
  induction fuel with
  | zero =>
    intro l hl
    have : l = [] := List.eq_nil_of_length_eq_zero (Nat.le_zero.mp hl)
    subst this
    simp [chunksAux_nil]
  | succ f ih =>
    intro l hl c hc
    cases l with
    | nil => simp [chunksAux_nil] at hc
    | cons x xs =>
      simp only [List.length_cons] at hl
      simp only [chunksAux, List.isEmpty_cons, if_neg Bool.false_ne_true] at hc
      by_cases hd : (x :: xs).drop n = []
      · rw [hd, chunksAux_nil] at hc
        simp at hc
      · have hlen : ((x :: xs).drop n).length ≤ f := by
          simp only [List.length_drop, List.length_cons]
          omega
        have hne := chunksAux_ne_nil n f _ hd hlen
        cases hrec : chunksAux n f ((x :: xs).drop n) with
        | nil => exact absurd hrec hne
        | cons y ys =>
          rw [hrec] at hc
          rw [List.dropLast_cons₂] at hc
          have hlong : n < (x :: xs).length := by
            by_contra hcon
            push_neg at hcon
            exact hd (List.drop_eq_nil_of_le hcon)
          simp only [List.length_cons] at hlong
          rcases List.mem_cons.mp hc with h1 | h2
          · subst h1
            simp only [List.length_take, List.length_cons]
            omega
          · have := ih _ hlen
            rw [hrec] at this
            exact this c h2

theorem chunks_le {α : Type} (lst : List α) (n : Nat) :
    ∀ c ∈ chunks lst n, c.length ≤ n := by
  unfold chunks
  by_cases hn : n = 0
  · simp [hn]
  rw [if_neg hn]
  suffices h : ∀ fuel (l : List α), ∀ c ∈ chunksAux n fuel l, c.length ≤ n by
    exact h lst.length lst
  intro fuel
  induction fuel with
  | zero => intro l c hc; simp [chunksAux] at hc
  | succ f ih =>
    intro l c hc
    cases l with
    | nil => simp [chunksAux_nil] at hc
    | cons x xs =>
      simp only [chunksAux, List.isEmpty_cons, if_neg Bool.false_ne_true] at hc
      rcases List.mem_cons.mp hc with h1 | h2
      · subst h1
        simp [List.length_take]
      · exact ih _ c h2

theorem windows_char {α : Type} (lst : List α) (S : Nat) (hS : 0 < S) :
    windows lst S =
      (List.range (lst.length / S)).map (fun i => (lst.drop (i * S)).take S) := by
  unfold windows chunks
  rw [if_neg (Nat.pos_iff_ne_zero.mp hS)]
  suffices h : ∀ fuel (l : List α), l.length ≤ fuel →
      (chunksAux S fuel l).filter (fun c => c.length == S) =
        (List.range (l.length / S)).map (fun i => (l.drop (i * S)).take S) by
    exact h lst.length lst (Nat.le_refl _)
  intro fuel
  induction fuel with
  | zero =>
    intro l hl
    have : l = [] := List.eq_nil_of_length_eq_zero (Nat.le_zero.mp hl)
    subst this
    simp [chunksAux_nil]
  | succ f ih =>
    intro l hl
    cases l with
    | nil => simp [chunksAux_nil]
    | cons x xs =>
      simp only [List.length_cons] at hl
      simp only [chunksAux, List.isEmpty_cons, if_neg Bool.false_ne_true]
      by_cases hSL : S ≤ xs.length + 1
      · have htake : ((x :: xs).take S).length = S := by
          simp only [List.length_take, List.length_cons]
          omega
        rw [List.filter_cons_of_pos (by simp [htake])]
        have hdiv : (x :: xs).length / S = ((x :: xs).length - S) / S + 1 := by
          rw [Nat.div_eq]
          simp only [List.length_cons]
          simp [hS, hSL]
        rw [hdiv, List.range_succ_eq_map, List.map_cons, List.map_map]
        congr 1
        · simp
        · have hlen : ((x :: xs).drop S).length ≤ f := by
            simp only [List.length_drop, List.length_cons]
            omega
          rw [ih _ hlen]
          simp only [List.length_drop]
          apply List.map_congr_left
          intro i _
          simp only [Function.comp_apply, List.drop_drop]
          congr 2
          rw [Nat.succ_mul]
          omega
      · push_neg at hSL
        have htake : ((x :: xs).take S).length ≠ S := by
          simp only [List.length_take, List.length_cons]
          omega
        rw [List.filter_cons_of_neg (by simp only [beq_iff_eq]; exact htake)]
        have hd : (x :: xs).drop S = [] := by
          apply List.drop_eq_nil_of_le
          simp only [List.length_cons]
          omega
        rw [hd, chunksAux_nil]
        have : (x :: xs).length / S = 0 := by
          apply Nat.div_eq_of_lt
          simp only [List.length_cons]
          omega
        rw [this]
        simp

theorem windows_flatten {α : Type} (lst : List α) (S : Nat) (hS : 0 < S) :
    (windows lst S).flatten = lst.take (lst.length / S * S) := by
  unfold windows chunks
  rw [if_neg (Nat.pos_iff_ne_zero.mp hS)]
  suffices h : ∀ fuel (l : List α), l.length ≤ fuel →
      ((chunksAux S fuel l).filter (fun c => c.length == S)).flatten =
        l.take (l.length / S * S) by
    exact h lst.length lst (Nat.le_refl _)
  intro fuel
  induction fuel with
  | zero =>
    intro l hl
    have : l = [] := List.eq_nil_of_length_eq_zero (Nat.le_zero.mp hl)
    subst this
    simp [chunksAux_nil]
  | succ f ih =>
    intro l hl
    cases l with
    | nil => simp [chunksAux_nil]
    | cons x xs =>
      simp only [List.length_cons] at hl
      simp only [chunksAux, List.isEmpty_cons, if_neg Bool.false_ne_true]
      by_cases hSL : S ≤ xs.length + 1
      · have htake : ((x :: xs).take S).length = S := by
          simp only [List.length_take, List.length_cons]
          omega
        rw [List.filter_cons_of_pos (by simp [htake])]
        have hlen : ((x :: xs).drop S).length ≤ f := by
          simp only [List.length_drop, List.length_cons]
          omega
        rw [List.flatten_cons, ih _ hlen]
        simp only [List.length_drop]
        have hdiv : (x :: xs).length / S = ((x :: xs).length - S) / S + 1 := by
          rw [Nat.div_eq]
          simp only [List.length_cons]
          simp [hS, hSL]
        rw [hdiv, Nat.succ_mul, ← List.take_add]
        congr 1
        simp only [List.length_cons]
        omega
      · push_neg at hSL
        have htake : ((x :: xs).take S).length ≠ S := by
          simp only [List.length_take, List.length_cons]
          omega
        rw [List.filter_cons_of_neg (by simp only [beq_iff_eq]; exact htake)]
        have hd : (x :: xs).drop S = [] := by
          apply List.drop_eq_nil_of_le
          simp only [List.length_cons]
          omega
        rw [hd, chunksAux_nil]
        have : (x :: xs).length / S = 0 := by
          apply Nat.div_eq_of_lt
          simp only [List.length_cons]
          omega
        rw [this]
        simp

theorem chunks_nil {α : Type} (n : Nat) : chunks ([] : List α) n = [] := by
  unfold chunks
  split <;> simp [chunksAux_nil]

theorem sub_div_mul_eq_mod (L S : Nat) : L - L / S * S = L % S := by
  have h := Nat.div_add_mod L S
  have h2 : S * (L / S) = L / S * S := Nat.mul_comm _ _
  omega

/-! ## Helper lemmas about the write loop -/

theorem batchTrace_no_commit {α : Type} :
    ∀ (bs : List (List α)) (count : Nat), WEvent.commit ∉ batchTrace bs count := by
  intro bs
  induction bs with
  | nil => intro count; simp [batchTrace]
  | cons b rest ih =>
    intro count
    simp [batchTrace]
    exact ih _

theorem writeLoop_eq_batchTrace {α : Type} :
    ∀ (fuel : Nat) (items : List α) (count : Nat), items.length ≤ fuel →
      writeLoop fuel items count = batchTrace (chunks items batch_size) count := by
  intro fuel
  induction fuel with
  | zero =>
    intro items count hlen
    have : items = [] := List.eq_nil_of_length_eq_zero (Nat.le_zero.mp hlen)
    subst this
    simp [writeLoop, chunks_nil, batchTrace]
  | succ f ih =>
    intro items count hlen
    simp only [writeLoop]
    by_cases hfull : (items.take batch_size).length = batch_size
    · rw [if_pos hfull]
      have hne : items ≠ [] := by
        intro h
        subst h
        simp [batch_size] at hfull
      rw [chunks_cons items batch_size (by decide) hne]
      simp only [batchTrace]
      rw [hfull]
      congr 1
      congr 1
      apply ih
      simp only [List.length_drop]
      have hbs : 0 < batch_size := by decide
      have : batch_size ≤ items.length := by
        have hmin := List.length_take batch_size items
        rw [hfull] at hmin
        omega
      omega
    · rw [if_neg hfull]
      by_cases hemp : (items.take batch_size).isEmpty
      · rw [if_pos hemp]
        have htn : items.take batch_size = [] := by
          simpa [List.isEmpty_iff] using hemp
        have : items = [] := by
          rcases List.take_eq_nil_iff.mp htn with h | h
          · exact absurd h (by decide)
          · exact h
        subst this
        simp [chunks_nil, batchTrace]
      · rw [if_neg hemp]
        have hne : items ≠ [] := by
          intro h
          subst h
          simp at hemp
        rw [chunks_cons items batch_size (by decide) hne]
        have hd : items.drop batch_size = [] := by
          apply List.drop_eq_nil_of_le
          have hmin := List.length_take batch_size items
          by_contra hcon
          push_neg at hcon
          rw [Nat.min_eq_left (Nat.le_of_lt hcon)] at hmin
          exact hfull hmin
        rw [hd, chunks_nil]
        simp [batchTrace]

/-! ## Helper lemma about the stream builder -/

theorem streamLoop_append (tok : String → List Int) (eot : Int) :
    ∀ (ps : List String) (c : List Int),
      ps.foldl
        (fun content para => if para = "" then content else content ++ (tok para ++ [eot])) c
      = c ++ ((ps.filter (fun p => p != "")).map (fun p => tok p ++ [eot])).flatten := by
  intro ps
  induction ps with
  | nil => intro c; simp
  | cons p rest ih =>
    intro c
    by_cases hp : p = ""
    · subst hp
      simp [ih]
    · simp only [List.foldl_cons, if_neg hp, ih, List.filter_cons]
      have : (p != "") = true := by simpa using hp
      simp [this, List.append_assoc]

/-! ## Claim theorems -/

/-- C1: for every token-id stream and every window size S > 0, the
windowing step (chunks followed by the length filter) emits exactly
floor(L / S) Windows; the i-th Window is the contiguous slice of S ids
starting at offset i * S (so Windows are in order, non-overlapping, from
offset 0); every Window has length exactly S; and the stream splits into
the emitted Windows followed by the dropped final L mod S ids, which are
never padded. -/
theorem c1_windowing (lst : List Int) (S : Nat) (hS : 0 < S) :
    windows lst S =
      (List.range (lst.length / S)).map (fun i => (lst.drop (i * S)).take S) ∧
    (windows lst S).length = lst.length / S ∧
    (∀ w ∈ windows lst S, w.length = S) ∧
    (windows lst S).flatten ++ lst.drop (lst.length / S * S) = lst ∧
    (lst.drop (lst.length / S * S)).length = lst.length % S := by
  refine ⟨windows_char lst S hS, ?_, ?_, ?_, ?_⟩
  · rw [windows_char lst S hS]
    simp
  · intro w hw
    have := List.of_mem_filter hw
    simpa using this
  · rw [windows_flatten lst S hS, List.take_append_drop]
  · rw [List.length_drop]
    exact sub_div_mul_eq_mod lst.length S

/-- Witness for C1 at the stream [10,20,30,40,50,60,70] with S = 3:
two full windows, one dropped id. -/
theorem c1_windowing_witness :
    0 < 3 ∧ (∀ w ∈ windows ([10, 20, 30, 40, 50, 60, 70] : List Int) 3, w.length = 3) :=
  ⟨by decide, (c1_windowing [10, 20, 30, 40, 50, 60, 70] 3 (by decide)).2.2.1⟩

/-- C2 counterexample: a Document with nonempty text but empty
tokenization.  The code (the accumulation loop of tokenize_openwebtext)
appends the end marker for it, while the spec stream, which drops
Documents of zero tokenized length, does not, so the claimed equality
fails on the Document list consisting of the single text a. -/
theorem c2_counterexample :
    buildStream (fun _ => ([] : List Int)) 3 ["a"] = [3] ∧
    specStream (fun _ => ([] : List Int)) 3 ["a"] = [] ∧
    buildStream (fun _ => ([] : List Int)) 3 ["a"] ≠
      specStream (fun _ => ([] : List Int)) 3 ["a"] := by
  refine ⟨rfl, rfl, ?_⟩
  decide

/-- C2 amended: the token-id stream equals the in-order concatenation,
over Documents whose TEXT is nonempty (the condition the code actually
tests), of that Document's ids followed by exactly one end-marker id; a
Document whose text is the empty string contributes nothing, not even an
end marker. -/
theorem c2_amended (tok : String → List Int) (eot : Int) (paras : List String) :
    buildStream tok eot paras =
      ((paras.filter (fun p => p != "")).map (fun p => tok p ++ [eot])).flatten := by
  unfold buildStream
  simpa using streamLoop_append tok eot paras []

/-- C3: on every finite Window stream, the per-worker loop of task_unit
produces exactly the trace: for each batch (the 1024-sized chunks of the
stream, the last one possibly partial) one write then one log of the
running count, and a single final commit after all writes.  The written
batches concatenate back to the whole stream in order (every Window
written exactly once, in order), every batch except possibly the last has
exactly 1024 Windows, none exceeds 1024, and stream exhaustion is normal:
the trace always ends in commit, which never occurs earlier. -/
theorem c3_task_unit (items : List Int) :
    task_unit items = batchTrace (chunks items batch_size) 0 ++ [WEvent.commit] ∧
    (chunks items batch_size).flatten = items ∧
    (∀ b ∈ (chunks items batch_size).dropLast, b.length = batch_size) ∧
    (∀ b ∈ chunks items batch_size, b.length ≤ batch_size) ∧
    WEvent.commit ∉ batchTrace (chunks items batch_size) 0 := by
  refine ⟨?_, ?_, ?_, ?_, ?_⟩
  · unfold task_unit
    rw [writeLoop_eq_batchTrace items.length items 0 (Nat.le_refl _)]
  · exact chunks_flatten items batch_size (by decide)
  · exact chunks_dropLast items batch_size (by decide)
  · exact chunks_le items batch_size
  · exact batchTrace_no_commit _ _

/-- C4 counterexample: the lambada normalization of the text field
curly-quote Hello period curly-quote does NOT give Hello: the outer
strip(".") sees the straight quotes at both ends, not the period, so the
period (and the quotes) survive. -/
theorem c4_counterexample : lambadaNormalize lambadaExample ≠ "Hello" := by
  decide

/-- C4 amended: the lambada driver normalizes the example text field to
straight-quote Hello period straight-quote: curly double quotes are
replaced by straight quotes and outer whitespace and outer periods are
stripped, but here the quotes shield the period, so the result keeps the
quotes and the period. -/
theorem c4_amended :
    lambadaNormalize lambadaExample = straightQuote ++ "Hello." ++ straightQuote := by
  decide

/-- C5 counterexample: with data_column_name set to tokens, the written
sample (whose field name is the hard-coded literal input_ids) does not
match the declared schema. -/
theorem c5_counterexample :
    matchesSchema (mkSample [1, 2, 3]) (mindrecord_schema "tokens") = false := by
  decide

/-- C5 amended: every emitted Window is stored as an int32 array under the
FIXED field name input_ids (line 106 hard-codes it), while the schema is
bound to the data_column_name option (line 245); the written samples
match the declared schema exactly when data_column_name is input_ids,
its default. -/
theorem c5_amended (name : String) (chunk : List Int) :
    matchesSchema (mkSample chunk) (mindrecord_schema name) = true ↔ name = "input_ids" := by
  simp [matchesSchema, mkSample, mindrecord_schema]
  constructor
  · intro h
    exact h.symm
  · intro h
    exact h.symm

/-- C6 counterexample: with file_partition = 12 the first shard file is
out00 (zero-padded to width 2) but the final summary line prints out0
(a single appended 0), so the claimed equality fails at 12. -/
theorem c6_counterexample :
    summary_out_file "out" 12 ≠
      "out" ++ pyRjust (toString 0) (shardSuffixWidth 12) '0' := by
  decide

/-- C6 amended: for every file_partition > 1 the final summary line names
output_file with one literal 0 appended, which coincides with the first
shard's zero-padded file name exactly when the suffix width is 1, i.e.
when file_partition is at most 10. -/
theorem c6_amended (out : String) (N : Nat) (h : 1 < N) :
    summary_out_file out N = out ++ "0" ∧
    (N ≤ 10 → summary_out_file out N = out ++ pyRjust (toString 0) (shardSuffixWidth N) '0') := by
  constructor
  · simp [summary_out_file, h]
  · intro h10
    have hw : shardSuffixWidth N = 1 := by
      interval_cases N <;> rfl
    have hp : pyRjust (toString 0) 1 '0' = "0" := by decide
    rw [hw, hp]
    simp [summary_out_file, h]

/-- Witness for C6 at file_partition = 5: the summary path is out0, which
equals the first shard name since 5 is at most 10. -/
theorem c6_amended_witness :
    1 < 5 ∧ (summary_out_file "out" 5 = "out" ++ "0" ∧
      (5 ≤ 10 → summary_out_file "out" 5 = "out" ++ pyRjust (toString 0) (shardSuffixWidth 5) '0')) :=
  ⟨by decide, c6_amended "out" 5 (by decide)⟩

/-- C7 counterexample: for file_partition = 1 the openwebtext path still
computes a suffix of width len(str(0)) = 1, so the single produced file
is out0, not the bare output_file out. -/
theorem c7_counterexample : file_names "out" 1 ≠ ["out"] := by
  decide

/-- C7 amended: for every file_partition N > 0 the produced shard names
are exactly output_file followed by the decimal index zero-padded to
width len(str(N-1)), for indices 0..N-1; in particular for N = 1 the
single produced path is output_file with 0 appended, not output_file
itself. -/
theorem c7_amended (out : String) (N : Nat) (h : 0 < N) :
    (∀ name, name ∈ file_names out N ↔
      ∃ i, i < N ∧ name = out ++ pyRjust (toString i) (shardSuffixWidth N) '0') ∧
    file_names out 1 = [out ++ "0"] := by
  constructor
  · intro name
    simp only [file_names, List.mem_map, List.mem_range]
    constructor
    · rintro ⟨i, hi, hn⟩
      exact ⟨i, hi, hn.symm⟩
    · rintro ⟨i, hi, hn⟩
      exact ⟨i, hi, hn.symm⟩
  · have hp : pyRjust (toString 0) (shardSuffixWidth 1) '0' = "0" := by decide
    have hr : List.range 1 = [0] := rfl
    simp [file_names, hr, hp]

/-- Witness for C7 at N = 12, name out03: the membership equivalence holds
at a concrete shard name. -/
theorem c7_amended_witness :
    0 < 12 ∧ ("out03" ∈ file_names "out" 12 ↔
      ∃ i, i < 12 ∧ "out03" = "out" ++ pyRjust (toString i) (shardSuffixWidth 12) '0') :=
  ⟨by decide, (c7_amended "out" 12 (by decide)).1 "out03"⟩

/-- C8: the wiki text normalizer maps the representative markup string
equals space equals space Title space equals space equals to
== Title ==, and applying it twice yields the same output as once on the
representative wiki markup strings. -/
theorem c8_idempotent :
    clean_wikitext "= = Title = =" = "== Title ==" ∧
    clean_wikitext (clean_wikitext "= = Title = =") = clean_wikitext "= = Title = =" ∧
    clean_wikitext (clean_wikitext "the game ( second )") =
      clean_wikitext "the game ( second )" ∧
    clean_wikitext (clean_wikitext "a @-@ b , c") = clean_wikitext "a @-@ b , c" := by
  refine ⟨?_, ?_, ?_, ?_⟩ <;> decide

/-- C9: for every list and every n > 0, concatenating the slices yielded
by chunks(lst, n) in order reproduces the list exactly (no id lost or
duplicated before the window filter), and every yielded slice except
possibly the last has length exactly n. -/
theorem c9_chunks (lst : List Int) (n : Nat) (hn : 0 < n) :
    (chunks lst n).flatten = lst ∧
    ∀ c ∈ (chunks lst n).dropLast, c.length = n :=
  ⟨chunks_flatten lst n hn, chunks_dropLast lst n hn⟩

/-- Witness for C9 at [1,2,3,4,5] with n = 2. -/
theorem c9_chunks_witness :
    0 < 2 ∧ ((chunks ([1, 2, 3, 4, 5] : List Int) 2).flatten = [1, 2, 3, 4, 5] ∧
      ∀ c ∈ (chunks ([1, 2, 3, 4, 5] : List Int) 2).dropLast, c.length = 2) :=
  ⟨by decide, c9_chunks [1, 2, 3, 4, 5] 2 (by decide)⟩

/-- C10: on every constructed JIEBATokenizer, __len__ raises an
AttributeError because it reads the attribute special_tokens, which
__init__ never assigns (lookup yields none), while the encoder attribute
is present and the vocab_size property returns the encoder size. -/
theorem c10_len_raises (pieces : List String) (maxLen : Option Nat) :
    dunderLen (JIEBATokenizer.init pieces maxLen) =
      Except.error "AttributeError: special_tokens" ∧
    getattrJT (JIEBATokenizer.init pieces maxLen) "special_tokens" = none ∧
    getattrJT (JIEBATokenizer.init pieces maxLen) "encoder" =
      some (PyAttrVal.dictV (JIEBATokenizer.init pieces maxLen).encoder) ∧
    vocab_size (JIEBATokenizer.init pieces maxLen) =
      (JIEBATokenizer.init pieces maxLen).encoder.length :=
  ⟨rfl, rfl, rfl, rfl⟩
